import Mathlib

/-!
Verification of `src/fix.py` (fixed-interest calculator).

The Python source computes with IEEE floats; this development embeds the
arithmetic shallowly over `ℚ` (exact rationals), the standard idealisation:
every float literal appearing in the claims is exactly representable, and the
claims under study carry explicit tolerances that absorb representation error.
Python exceptions (only `ZeroDivisionError` can escape from the numeric core)
are embedded with `Except`.

`round(x, k)` in Python 3 rounds half to even; on exact inputs this is the
`roundHalfEven` function below.  `int(round(years * 12))` is
`roundHalfEven (years * 12)`.
-/

namespace FixedInterest

/-- Round half to even (Python 3 `round` on an exact value): nearest integer,
ties going to the even neighbour. -/
def roundHalfEven (q : ℚ) : ℤ :=
  if q - (⌊q⌋ : ℚ) < 1/2 then ⌊q⌋
  else if 1/2 < q - (⌊q⌋ : ℚ) then ⌊q⌋ + 1
  else if ⌊q⌋ % 2 = 0 then ⌊q⌋ else ⌊q⌋ + 1

/-- Python `round(x, 2)`: round half to even at two decimal digits. -/
def round2 (q : ℚ) : ℚ := (roundHalfEven (100 * q) : ℚ) / 100

/-- Modelled from the spec (§4.1), for comparison only: the "round-half-up"
tie-break policy the spec prescribes for the period count (ties go to the next
integer up). -/
def roundHalfUp (q : ℚ) : ℤ := ⌊q + 1/2⌋

/-- The errors the spec's taxonomy names, plus the one error that can actually
escape from the numeric core of `fix.py` (Python's `ZeroDivisionError`).
`invalidTerm` and `invalidCompoundingFrequency` appear nowhere in the source;
they are listed so that "fails with a different error" is statable. -/
inductive PyError where
  | zeroDivision
  | invalidTerm
  | invalidCompoundingFrequency
deriving DecidableEq

/-- Result record of `simple_interest` (the dict
`{"principal": _, "interest": _, "total": _}`). -/
structure InterestResult where
  principal : ℚ
  interest : ℚ
  total : ℚ
deriving DecidableEq

/-- Embedding of `simple_interest` (src/fix.py:28-42).  No division, no
exception: a total function. -/
def simple_interest (principal rate_percent time_years : ℚ) : InterestResult :=
  let rate := rate_percent / 100
  let interest := principal * rate * time_years
  let total := principal + interest
  { principal := principal, interest := interest, total := total }

/-- Result record of `compound_interest` (the dict
`{"principal": _, "amount": _, "interest": _}`). -/
structure CompoundResult where
  principal : ℚ
  amount : ℚ
  interest : ℚ
deriving DecidableEq

/-- Embedding of `compound_interest` (src/fix.py:45-60).
`amount = principal * (1 + rate/n) ** (n * time_years)`.
Exceptions of the float evaluation: `rate / n` raises `ZeroDivisionError` when
`n = 0`, and `0.0 ** e` raises `ZeroDivisionError` when the base is zero and
the exponent negative.  The float power has an exact rational value only when
the exponent `n * time_years` is an integer; for a fractional exponent Python
still returns a value (a float or complex, irrational in general), embedded
here as `Except.ok none`. -/
def compound_interest (principal rate_percent time_years : ℚ) (n : ℤ) :
    Except PyError (Option CompoundResult) :=
  if n = 0 then .error .zeroDivision
  else
    let rate := rate_percent / 100
    let base := 1 + rate / (n : ℚ)
    let e := (n : ℚ) * time_years
    if base = 0 ∧ e < 0 then .error .zeroDivision
    else if e.den = 1 then
      let amount := principal * base ^ e.num
      .ok (some { principal := principal, amount := amount,
                  interest := amount - principal })
    else .ok none

/-- Embedding of `monthly_payment` (src/fix.py:63-74).
`n_payments = int(round(years * 12))`; if the monthly rate is zero the result
is `principal / n_payments` (raising `ZeroDivisionError` when `n_payments = 0`);
otherwise `principal * r / (1 - (1 + r) ** (-n_payments))`, where the float
power raises `ZeroDivisionError` on a zero base with positive `n_payments`,
and the division raises `ZeroDivisionError` when the denominator is zero
(`n_payments = 0` in particular). -/
def monthly_payment (principal annual_rate_percent years : ℚ) :
    Except PyError ℚ :=
  let monthly_rate := annual_rate_percent / 100 / 12
  let n_payments : ℤ := roundHalfEven (years * 12)
  if monthly_rate = 0 then
    if n_payments = 0 then .error .zeroDivision
    else .ok (principal / (n_payments : ℚ))
  else
    if 1 + monthly_rate = 0 ∧ 0 < n_payments then .error .zeroDivision
    else
      let denom := 1 - (1 + monthly_rate) ^ (-n_payments)
      if denom = 0 then .error .zeroDivision
      else .ok (principal * monthly_rate / denom)

/-- One row of the amortization schedule (the dict appended at
src/fix.py:96-102). -/
structure Row where
  month : ℤ
  payment : ℚ
  principal_paid : ℚ
  interest_paid : ℚ
  remaining_balance : ℚ
deriving DecidableEq

/-- The loop body of `amortization_schedule` (src/fix.py:88-102), by recursion
on the number of remaining periods.  The state is `(payment, balance)`: the
final-payment clamp reassigns `payment`, and the reassigned value persists for
the remaining iterations, exactly as in the Python loop.  The running balance
is carried unrounded; rounding happens only in the recorded row. -/
def amortLoop (r : ℚ) : ℕ → ℚ → ℚ → ℤ → List Row
  | 0, _, _, _ => []
  | k + 1, payment, balance, month =>
    let interest := balance * r
    let principal_paid := payment - interest
    let principal_paid' := if principal_paid > balance then balance else principal_paid
    let payment' :=
      if principal_paid > balance then interest + principal_paid' else payment
    let balance' := balance - principal_paid'
    { month := month
      payment := round2 payment'
      principal_paid := round2 principal_paid'
      interest_paid := round2 interest
      remaining_balance := round2 (max balance' 0) } ::
      amortLoop r k payment' balance' (month + 1)

/-- Embedding of `amortization_schedule` (src/fix.py:77-103): computes the
fixed payment via `monthly_payment` (propagating its exception) and runs the
loop for `n_payments` periods (Python's `range(1, n+1)` is empty when
`n_payments ≤ 0`, hence `Int.toNat`). -/
def amortization_schedule (principal annual_rate_percent years : ℚ) :
    Except PyError (List Row) :=
  let monthly_rate := annual_rate_percent / 100 / 12
  let n_payments : ℤ := roundHalfEven (years * 12)
  match monthly_payment principal annual_rate_percent years with
  | .error e => .error e
  | .ok payment =>
      .ok (amortLoop monthly_rate n_payments.toNat payment principal 1)

/-! ### Elementary facts about the rounding functions -/

lemma roundHalfEven_ge_floor (q : ℚ) : ⌊q⌋ ≤ roundHalfEven q := by
  unfold roundHalfEven
  split_ifs <;> omega

lemma roundHalfEven_le_floor_add_one (q : ℚ) : roundHalfEven q ≤ ⌊q⌋ + 1 := by
  unfold roundHalfEven
  split_ifs <;> omega

lemma roundHalfEven_le (q : ℚ) : (roundHalfEven q : ℚ) ≤ q + 1/2 := by
  have hle := Int.floor_le q
  have hlt := Int.lt_floor_add_one q
  unfold roundHalfEven
  split_ifs with h1 h2 h3 <;> push_cast <;> linarith

lemma le_roundHalfEven (q : ℚ) : q - 1/2 ≤ (roundHalfEven q : ℚ) := by
  have hle := Int.floor_le q
  have hlt := Int.lt_floor_add_one q
  unfold roundHalfEven
  split_ifs with h1 h2 h3 <;> push_cast <;> linarith

lemma abs_roundHalfEven_sub_le (q : ℚ) : |(roundHalfEven q : ℚ) - q| ≤ 1/2 := by
  rw [abs_le]
  constructor
  · linarith [le_roundHalfEven q]
  · linarith [roundHalfEven_le q]

lemma roundHalfEven_mono {x y : ℚ} (h : x ≤ y) :
    roundHalfEven x ≤ roundHalfEven y := by
  rcases eq_or_lt_of_le h with rfl | hlt
  · exact le_rfl
  · have h1 : (roundHalfEven x : ℚ) ≤ x + 1/2 := roundHalfEven_le x
    have h2 : y - 1/2 ≤ (roundHalfEven y : ℚ) := le_roundHalfEven y
    have : (roundHalfEven x : ℚ) < (roundHalfEven y : ℚ) + 1 := by linarith
    exact_mod_cast Int.lt_add_one_iff.mp (by exact_mod_cast this)

lemma roundHalfEven_nonneg {q : ℚ} (h : 0 ≤ q) : 0 ≤ roundHalfEven q :=
  le_trans (Int.floor_nonneg.2 h) (roundHalfEven_ge_floor q)

lemma roundHalfEven_zero : roundHalfEven 0 = 0 := by
  norm_num [roundHalfEven]

lemma round2_zero : round2 0 = 0 := by
  simp [round2, roundHalfEven_zero]

lemma round2_mono {x y : ℚ} (h : x ≤ y) : round2 x ≤ round2 y := by
  unfold round2
  have := roundHalfEven_mono (mul_le_mul_of_nonneg_left h (by norm_num : (0:ℚ) ≤ 100))
  have hcast : (roundHalfEven (100 * x) : ℚ) ≤ (roundHalfEven (100 * y) : ℚ) := by
    exact_mod_cast this
  linarith

lemma round2_nonneg {q : ℚ} (h : 0 ≤ q) : 0 ≤ round2 q := by
  unfold round2
  have : (0:ℚ) ≤ (roundHalfEven (100 * q) : ℚ) := by
    exact_mod_cast roundHalfEven_nonneg (by linarith)
  linarith

lemma abs_round2_sub_le (q : ℚ) : |round2 q - q| ≤ 1/200 := by
  unfold round2
  have h := abs_roundHalfEven_sub_le (100 * q)
  have h2 : (roundHalfEven (100 * q) : ℚ) / 100 - q
      = ((roundHalfEven (100 * q) : ℚ) - 100 * q) / 100 := by ring
  rw [h2, abs_div, abs_of_pos (show (0:ℚ) < 100 by norm_num),
    div_le_iff₀ (show (0:ℚ) < 100 by norm_num)]
  linarith

/-! ### The unclamped running balance of the schedule loop -/

/-- The running balance of the loop in `amortization_schedule` assuming the
final-payment clamp never fires: each period adds interest `r` and subtracts
the fixed payment. -/
def iterBal (r pay b : ℚ) : ℕ → ℚ
  | 0 => b
  | k + 1 => iterBal r pay b k * (1 + r) - pay

lemma iterBal_succ (r pay b : ℚ) (k : ℕ) :
    iterBal r pay b (k + 1) = iterBal r pay b k * (1 + r) - pay := rfl

lemma iterBal_sub_succ (r pay b : ℚ) (k : ℕ) :
    iterBal r pay b k - iterBal r pay b (k + 1) = pay - iterBal r pay b k * r := by
  rw [iterBal_succ]
  ring

lemma iterBal_shift (r pay b : ℚ) (j : ℕ) :
    iterBal r pay (b * (1 + r) - pay) j = iterBal r pay b (j + 1) := by
  induction j with
  | zero => simp [iterBal]
  | succ j ih =>
    rw [iterBal_succ, ih]
    exact (iterBal_succ r pay b (j + 1)).symm

/-- As long as the unclamped balance stays nonnegative after each step, the
clamp `principal_paid > balance` never fires, and the loop produces exactly
the rows of the unclamped recurrence, rounded at emission. -/
lemma amortLoop_eq_of_no_clamp (r pay : ℚ) :
    ∀ (k : ℕ) (b : ℚ) (m : ℤ),
      (∀ j, j < k → pay ≤ iterBal r pay b j * (1 + r)) →
      amortLoop r k pay b m = (List.range k).map fun j =>
        { month := m + (j : ℤ)
          payment := round2 pay
          principal_paid := round2 (pay - iterBal r pay b j * r)
          interest_paid := round2 (iterBal r pay b j * r)
          remaining_balance := round2 (max (iterBal r pay b (j + 1)) 0) } := by
  intro k
  induction k with
  | zero => intro b m _; rfl
  | succ k ih =>
    intro b m h
    have h0 : pay ≤ b * (1 + r) := by
      have := h 0 (Nat.succ_pos k)
      simpa [iterBal] using this
    have hnc : ¬ (pay - b * r > b) := by
      push_neg
      nlinarith
    have hb' : b - (pay - b * r) = b * (1 + r) - pay := by ring
    rw [List.range_succ_eq_map, List.map_cons, List.map_map]
    show amortLoop r (k + 1) pay b m = _
    rw [amortLoop]
    simp only [if_neg hnc]
    rw [hb']
    rw [ih (b * (1 + r) - pay) (m + 1) (fun j hj => by
      rw [iterBal_shift]
      exact h (j + 1) (by omega))]
    congr 1
    · simp [iterBal]
    · apply List.map_congr_left
      intro j _
      simp only [Function.comp_apply]
      rw [iterBal_shift]
      rw [iterBal_shift]
      congr 1
      omega

/-! ### Closed form of the running balance, in the two rate regimes -/

lemma iterBal_rate_zero (pay b : ℚ) (k : ℕ) :
    iterBal 0 pay b k = b - (k : ℚ) * pay := by
  induction k with
  | zero => simp [iterBal]
  | succ k ih =>
    rw [iterBal_succ, ih]
    push_cast
    ring

lemma discount_lt_one {r : ℚ} (hr : 0 < r) {N : ℕ} (hN : 1 ≤ N) :
    (1 + r) ^ (-(N:ℤ)) < 1 := by
  have h1 : (1:ℚ) < 1 + r := by linarith
  have hlt : -(N:ℤ) < 0 := by omega
  simpa using (zpow_lt_zpow_iff_right₀ h1).mpr hlt

lemma discountDenom_pos {r : ℚ} (hr : 0 < r) {N : ℕ} (hN : 1 ≤ N) :
    0 < 1 - (1 + r) ^ (-(N:ℤ)) := by
  have := discount_lt_one hr hN
  linarith

lemma payFormula_pos {P r : ℚ} (hP : 0 < P) (hr : 0 < r) {N : ℕ} (hN : 1 ≤ N) :
    0 < P * r / (1 - (1 + r) ^ (-(N:ℤ))) :=
  div_pos (mul_pos hP hr) (discountDenom_pos hr hN)

lemma geom_step (pay r E : ℚ) (hr : r ≠ 0) :
    pay * (1 - E) / r * (1 + r) - pay = pay * (1 - E * (1 + r)) / r := by
  field_simp
  ring

lemma iterBal_closed {P r : ℚ} (hr : 0 < r) {N : ℕ} (hN : 1 ≤ N) (k : ℕ) :
    iterBal r (P * r / (1 - (1 + r) ^ (-(N:ℤ)))) P k
      = P * r / (1 - (1 + r) ^ (-(N:ℤ))) * (1 - (1 + r) ^ ((k:ℤ) - N)) / r := by
  have h1ne : (1 + r) ≠ 0 := by linarith
  have hD : 1 - (1 + r) ^ (-(N:ℤ)) ≠ 0 := (discountDenom_pos hr hN).ne'
  induction k with
  | zero =>
    simp only [iterBal, Nat.cast_zero, zero_sub]
    set D := 1 - (1 + r) ^ (-(N:ℤ)) with hDdef
    field_simp
  | succ k ih =>
    rw [iterBal_succ, ih, geom_step _ _ _ hr.ne']
    have he : ((k + 1 : ℕ) : ℤ) - N = ((k:ℤ) - N) + 1 := by push_cast; ring
    rw [he, zpow_add_one₀ h1ne]

lemma iterBal_pos_nonneg {P r : ℚ} (hP : 0 < P) (hr : 0 < r) {N : ℕ}
    (hN : 1 ≤ N) {k : ℕ} (hk : k ≤ N) :
    0 ≤ iterBal r (P * r / (1 - (1 + r) ^ (-(N:ℤ)))) P k := by
  rw [iterBal_closed hr hN]
  have hpay := payFormula_pos hP hr hN
  have hexp : (1 + r) ^ ((k:ℤ) - N) ≤ 1 :=
    zpow_le_one_of_nonpos₀ (by linarith) (by omega)
  have : 0 ≤ 1 - (1 + r) ^ ((k:ℤ) - N) := by linarith
  positivity

lemma iterBal_pos_paid_pos {P r : ℚ} (hP : 0 < P) (hr : 0 < r) {N : ℕ}
    (hN : 1 ≤ N) (k : ℕ) :
    0 < P * r / (1 - (1 + r) ^ (-(N:ℤ)))
        - iterBal r (P * r / (1 - (1 + r) ^ (-(N:ℤ)))) P k * r := by
  have hD : 1 - (1 + r) ^ (-(N:ℤ)) ≠ 0 := (discountDenom_pos hr hN).ne'
  have hpay := payFormula_pos hP hr hN
  have hkey : P * r / (1 - (1 + r) ^ (-(N:ℤ)))
      - iterBal r (P * r / (1 - (1 + r) ^ (-(N:ℤ)))) P k * r
      = P * r / (1 - (1 + r) ^ (-(N:ℤ))) * (1 + r) ^ ((k:ℤ) - N) := by
    rw [iterBal_closed hr hN, div_mul_cancel₀ _ hr.ne']
    ring
  rw [hkey]
  exact mul_pos hpay (zpow_pos (by linarith) _)

lemma iterBal_pos_mono {P r : ℚ} (hP : 0 < P) (hr : 0 < r) {N : ℕ}
    (hN : 1 ≤ N) (k : ℕ) :
    iterBal r (P * r / (1 - (1 + r) ^ (-(N:ℤ)))) P (k + 1)
      ≤ iterBal r (P * r / (1 - (1 + r) ^ (-(N:ℤ)))) P k := by
  have := iterBal_pos_paid_pos hP hr hN k
  have hsub := iterBal_sub_succ r (P * r / (1 - (1 + r) ^ (-(N:ℤ)))) P k
  linarith

lemma iterBal_pos_final {P r : ℚ} (hr : 0 < r) {N : ℕ} (hN : 1 ≤ N) :
    iterBal r (P * r / (1 - (1 + r) ^ (-(N:ℤ)))) P N = 0 := by
  rw [iterBal_closed hr hN]
  simp

lemma iterBal_zero_nonneg {P : ℚ} (hP : 0 < P) {N : ℕ} (hN : 1 ≤ N) {k : ℕ}
    (hk : k ≤ N) : 0 ≤ iterBal 0 (P / (N:ℚ)) P k := by
  rw [iterBal_rate_zero]
  have hNq : (0:ℚ) < (N:ℚ) := by exact_mod_cast Nat.pos_of_ne_zero (by omega)
  have hkq : (k:ℚ) ≤ (N:ℚ) := by exact_mod_cast hk
  have hrw : P - (k:ℚ) * (P / (N:ℚ)) = P * ((N:ℚ) - k) / (N:ℚ) := by
    field_simp
    ring
  rw [hrw]
  apply div_nonneg (mul_nonneg hP.le (by linarith)) hNq.le

lemma iterBal_zero_mono {P : ℚ} (hP : 0 < P) {N : ℕ} (hN : 1 ≤ N) (k : ℕ) :
    iterBal 0 (P / (N:ℚ)) P (k + 1) ≤ iterBal 0 (P / (N:ℚ)) P k := by
  rw [iterBal_rate_zero, iterBal_rate_zero]
  have hNq : (0:ℚ) < (N:ℚ) := by exact_mod_cast Nat.pos_of_ne_zero (by omega)
  have : 0 < P / (N:ℚ) := div_pos hP hNq
  push_cast
  nlinarith

lemma iterBal_zero_final {P : ℚ} {N : ℕ} (hN : 1 ≤ N) :
    iterBal 0 (P / (N:ℚ)) P N = 0 := by
  rw [iterBal_rate_zero]
  have hNq : ((N:ℚ)) ≠ 0 := by
    exact_mod_cast Nat.pos_of_ne_zero (by omega) |>.ne'
  field_simp

/-! ### Evaluation of `monthly_payment` on the two rate regimes -/

lemma monthly_payment_zero_rate (p y : ℚ)
    (hn : roundHalfEven (y * 12) ≠ 0) :
    monthly_payment p 0 y
      = Except.ok (p / ((roundHalfEven (y * 12) : ℤ) : ℚ)) := by
  simp only [monthly_payment]
  norm_num [hn]

lemma monthly_payment_pos_rate (p a y : ℚ) (ha : 0 < a)
    (hN : 1 ≤ roundHalfEven (y * 12)) :
    monthly_payment p a y
      = Except.ok (p * (a / 100 / 12)
          / (1 - (1 + a / 100 / 12) ^ (-(roundHalfEven (y * 12))))) := by
  have hr : 0 < a / 100 / 12 := by positivity
  have h1 : ¬ (a / 100 / 12 = 0) := hr.ne'
  have h2 : ¬ (1 + a / 100 / 12 = 0 ∧ 0 < roundHalfEven (y * 12)) := by
    rintro ⟨h, -⟩
    linarith
  have hNZ : ((roundHalfEven (y * 12)).toNat : ℤ) = roundHalfEven (y * 12) :=
    Int.toNat_of_nonneg (by omega)
  have hN1 : 1 ≤ (roundHalfEven (y * 12)).toNat := by omega
  have hD : 0 < 1 - (1 + a / 100 / 12) ^ (-(roundHalfEven (y * 12))) := by
    have := discountDenom_pos hr hN1
    rwa [hNZ] at this
  simp only [monthly_payment]
  rw [if_neg h1, if_neg h2, if_neg hD.ne']

/-! ### Normal form of a valid schedule -/

/-- The `j`-th row (0-based) of a schedule on which the final-payment clamp
never fired: the rounded image of the unclamped recurrence. -/
def scheduleRow (r pay p : ℚ) (j : ℕ) : Row :=
  { month := 1 + (j : ℤ)
    payment := round2 pay
    principal_paid := round2 (pay - iterBal r pay p j * r)
    interest_paid := round2 (iterBal r pay p j * r)
    remaining_balance := round2 (max (iterBal r pay p (j + 1)) 0) }

@[simp] lemma scheduleRow_month (r pay p : ℚ) (j : ℕ) :
    (scheduleRow r pay p j).month = 1 + (j : ℤ) := rfl

@[simp] lemma scheduleRow_payment (r pay p : ℚ) (j : ℕ) :
    (scheduleRow r pay p j).payment = round2 pay := rfl

@[simp] lemma scheduleRow_principal_paid (r pay p : ℚ) (j : ℕ) :
    (scheduleRow r pay p j).principal_paid
      = round2 (pay - iterBal r pay p j * r) := rfl

@[simp] lemma scheduleRow_interest_paid (r pay p : ℚ) (j : ℕ) :
    (scheduleRow r pay p j).interest_paid = round2 (iterBal r pay p j * r) := rfl

@[simp] lemma scheduleRow_remaining_balance (r pay p : ℚ) (j : ℕ) :
    (scheduleRow r pay p j).remaining_balance
      = round2 (max (iterBal r pay p (j + 1)) 0) := rfl

lemma schedule_ok_of (p a y pay : ℚ) (N : ℕ)
    (hmp : monthly_payment p a y = Except.ok pay)
    (hNdef : (roundHalfEven (y * 12)).toNat = N)
    (hnc : ∀ j, j < N →
      pay ≤ iterBal (a / 100 / 12) pay p j * (1 + a / 100 / 12)) :
    amortization_schedule p a y
      = Except.ok ((List.range N).map (scheduleRow (a / 100 / 12) pay p)) := by
  unfold amortization_schedule
  simp only [hmp]
  rw [hNdef, amortLoop_eq_of_no_clamp (a / 100 / 12) pay N p 1 hnc]
  rfl

/-- Normal form of a valid schedule: for positive principal, nonnegative rate
and at least one period, `monthly_payment` succeeds with a positive payment,
the final-payment clamp never fires, each emitted row is the rounded image of
the unclamped recurrence `iterBal`, and the unclamped balance is nonnegative
up to period `N`, non-increasing, and exactly zero at period `N`. -/
theorem schedule_normal_form (p a y : ℚ) (hp : 0 < p) (ha : 0 ≤ a)
    (hN : 1 ≤ roundHalfEven (y * 12)) :
    ∃ pay : ℚ,
      monthly_payment p a y = Except.ok pay ∧
      0 < pay ∧
      amortization_schedule p a y = Except.ok
        ((List.range (roundHalfEven (y * 12)).toNat).map
          (scheduleRow (a / 100 / 12) pay p)) ∧
      (∀ k, k ≤ (roundHalfEven (y * 12)).toNat →
        0 ≤ iterBal (a / 100 / 12) pay p k) ∧
      (∀ k, iterBal (a / 100 / 12) pay p (k + 1)
        ≤ iterBal (a / 100 / 12) pay p k) ∧
      iterBal (a / 100 / 12) pay p (roundHalfEven (y * 12)).toNat = 0 := by
  have hNZ : ((roundHalfEven (y * 12)).toNat : ℤ) = roundHalfEven (y * 12) :=
    Int.toNat_of_nonneg (by omega)
  have hN1 : 1 ≤ (roundHalfEven (y * 12)).toNat := by omega
  rcases eq_or_lt_of_le ha with haz | hapos
  · -- zero rate
    obtain rfl : a = 0 := haz.symm
    have hr0 : (0:ℚ) / 100 / 12 = 0 := by norm_num
    have hcast : ((roundHalfEven (y * 12) : ℤ) : ℚ)
        = (((roundHalfEven (y * 12)).toNat : ℕ) : ℚ) := by
      exact_mod_cast hNZ.symm
    have hnc : ∀ j, j < (roundHalfEven (y * 12)).toNat →
        p / ((roundHalfEven (y * 12) : ℤ) : ℚ)
          ≤ iterBal (0 / 100 / 12) (p / ((roundHalfEven (y * 12) : ℤ) : ℚ)) p j
            * (1 + 0 / 100 / 12) := by
      intro j hj
      have h1 := iterBal_zero_nonneg (P := p) hp hN1
        (k := j + 1) (by omega)
      rw [iterBal_succ] at h1
      simp only [hr0, hcast]
      linarith
    refine ⟨p / ((roundHalfEven (y * 12) : ℤ) : ℚ),
      monthly_payment_zero_rate p y (by omega), ?_, ?_, ?_, ?_, ?_⟩
    · apply div_pos hp
      exact_mod_cast (show (0:ℤ) < roundHalfEven (y * 12) by omega)
    · exact schedule_ok_of p 0 y _ _ (monthly_payment_zero_rate p y (by omega))
        rfl hnc
    · intro k hk
      simp only [hr0, hcast]
      exact iterBal_zero_nonneg hp hN1 hk
    · intro k
      simp only [hr0, hcast]
      exact iterBal_zero_mono hp hN1 k
    · simp only [hr0, hcast]
      exact iterBal_zero_final hN1
  · -- positive rate
    have hr : 0 < a / 100 / 12 := by positivity
    have hexp : (1 + a / 100 / 12) ^ (-(roundHalfEven (y * 12)))
        = (1 + a / 100 / 12) ^ (-(((roundHalfEven (y * 12)).toNat : ℕ) : ℤ)) := by
      rw [hNZ]
    have hnc : ∀ j, j < (roundHalfEven (y * 12)).toNat →
        p * (a / 100 / 12) / (1 - (1 + a / 100 / 12) ^ (-(roundHalfEven (y * 12))))
          ≤ iterBal (a / 100 / 12)
              (p * (a / 100 / 12)
                / (1 - (1 + a / 100 / 12) ^ (-(roundHalfEven (y * 12))))) p j
            * (1 + a / 100 / 12) := by
      intro j hj
      rw [hexp]
      have h1 := iterBal_pos_nonneg hp hr hN1 (k := j + 1) (by omega)
      rw [iterBal_succ] at h1
      linarith
    refine ⟨p * (a / 100 / 12)
        / (1 - (1 + a / 100 / 12) ^ (-(roundHalfEven (y * 12)))),
      monthly_payment_pos_rate p a y hapos hN, ?_, ?_, ?_, ?_, ?_⟩
    · rw [hexp]
      exact payFormula_pos hp hr hN1
    · exact schedule_ok_of p a y _ _ (monthly_payment_pos_rate p a y hapos hN)
        rfl hnc
    · intro k hk
      rw [hexp]
      exact iterBal_pos_nonneg hp hr hN1 hk
    · intro k
      rw [hexp]
      exact iterBal_pos_mono hp hr hN1 k
    · rw [hexp]
      exact iterBal_pos_final hr hN1

/-! ### List helpers -/

lemma getLast?_map_range {α : Type _} (f : ℕ → α) (n : ℕ) (hn : n ≠ 0) :
    ((List.range n).map f).getLast? = some (f (n - 1)) := by
  obtain ⟨m, rfl⟩ : ∃ m, n = m + 1 := ⟨n - 1, by omega⟩
  rw [List.range_succ, List.map_append]
  simp

lemma sum_map_round2_close (g : ℕ → ℚ) (n : ℕ) :
    |(((List.range n).map fun j => round2 (g j)).sum)
        - ((List.range n).map g).sum| ≤ (n : ℚ) * (1/200) := by
  induction n with
  | zero => simp
  | succ n ih =>
    rw [List.range_succ, List.map_append, List.map_append, List.sum_append,
      List.sum_append]
    simp only [List.map_cons, List.map_nil, List.sum_cons, List.sum_nil,
      add_zero]
    have h := abs_round2_sub_le (g n)
    have hrw : ((List.range n).map fun j => round2 (g j)).sum + round2 (g n)
          - (((List.range n).map g).sum + g n)
        = (((List.range n).map fun j => round2 (g j)).sum
            - ((List.range n).map g).sum) + (round2 (g n) - g n) := by
      ring
    rw [hrw]
    refine le_trans (abs_add _ _) ?_
    push_cast
    linarith

lemma sum_map_telescope (f : ℕ → ℚ) (n : ℕ) :
    ((List.range n).map fun j => f j - f (j + 1)).sum = f 0 - f n := by
  induction n with
  | zero => simp
  | succ n ih =>
    rw [List.range_succ, List.map_append, List.sum_append]
    simp only [List.map_cons, List.map_nil, List.sum_cons, List.sum_nil,
      add_zero, ih]
    ring

/-! ### The claims -/

/-- C1: for every valid `LoanTerms` (principal > 0, annual rate ≥ 0,
`round(years*12) ≥ 1`), the schedule produced by `amortization_schedule` has a
final row whose `remaining_balance` field equals 0.00 within a tolerance of
0.01. -/
theorem C1_final_row_balance_zero (p a y : ℚ) (hp : 0 < p) (ha : 0 ≤ a)
    (hN : 1 ≤ roundHalfEven (y * 12)) :
    ∃ rows last, amortization_schedule p a y = Except.ok rows ∧
      rows.getLast? = some last ∧ |last.remaining_balance - 0| ≤ 1/100 := by
  obtain ⟨pay, hmp, hpos, hsched, hnon, hmono, hfinal⟩ :=
    schedule_normal_form p a y hp ha hN
  have hN1 : 1 ≤ (roundHalfEven (y * 12)).toNat := by omega
  refine ⟨_, _, hsched,
    getLast?_map_range _ (roundHalfEven (y * 12)).toNat (by omega), ?_⟩
  have hidx : (roundHalfEven (y * 12)).toNat - 1 + 1
      = (roundHalfEven (y * 12)).toNat := by omega
  rw [scheduleRow_remaining_balance, hidx, hfinal]
  simp [round2_zero]

/-- C1 witness: the theorem applied to the concrete loan
principal 1200, rate 0%, years 1/6 (two periods). -/
theorem C1_witness :
    (0:ℚ) < 1200 ∧ (0:ℚ) ≤ 0 ∧ 1 ≤ roundHalfEven ((1/6 : ℚ) * 12) ∧
    (∃ rows last,
      amortization_schedule 1200 0 (1/6) = Except.ok rows ∧
      rows.getLast? = some last ∧ |last.remaining_balance - 0| ≤ 1/100) :=
  ⟨by norm_num, le_refl 0, by norm_num [roundHalfEven],
    C1_final_row_balance_zero 1200 0 (1/6) (by norm_num) (le_refl 0)
      (by norm_num [roundHalfEven])⟩

/-- C2: for every valid `LoanTerms`, the `payment` field is the same value in
every row of the schedule except possibly the last.  In exact arithmetic the
final-payment clamp never fires on a valid loan, so all rows (including the
last) record the same payment, the rounded `monthly_payment` value — which is
stronger than the claim's allowance for the last row to differ. -/
theorem C2_payment_constant (p a y : ℚ) (hp : 0 < p) (ha : 0 ≤ a)
    (hN : 1 ≤ roundHalfEven (y * 12)) :
    ∃ pay rows, monthly_payment p a y = Except.ok pay ∧
      amortization_schedule p a y = Except.ok rows ∧
      ∀ row ∈ rows, row.payment = round2 pay := by
  obtain ⟨pay, hmp, hpos, hsched, -, -, -⟩ :=
    schedule_normal_form p a y hp ha hN
  refine ⟨pay, _, hmp, hsched, ?_⟩
  intro row hrow
  obtain ⟨j, hj, rfl⟩ := List.mem_map.mp hrow
  rfl

/-- C2 witness: the theorem applied to the concrete loan
principal 500, rate 1200%, years 1/12 (one period). -/
theorem C2_witness :
    (0:ℚ) < 500 ∧ (0:ℚ) ≤ 1200 ∧ 1 ≤ roundHalfEven ((1/12 : ℚ) * 12) ∧
    (∃ pay rows, monthly_payment 500 1200 (1/12) = Except.ok pay ∧
      amortization_schedule 500 1200 (1/12) = Except.ok rows ∧
      ∀ row ∈ rows, row.payment = round2 pay) :=
  ⟨by norm_num, by norm_num, by norm_num [roundHalfEven],
    C2_payment_constant 500 1200 (1/12) (by norm_num) (by norm_num)
      (by norm_num [roundHalfEven])⟩

/-- C5: for every valid `LoanTerms`, `remaining_balance` is non-increasing
from each row to the next, and nonnegative in every row. -/
theorem C5_balance_monotone_nonneg (p a y : ℚ) (hp : 0 < p) (ha : 0 ≤ a)
    (hN : 1 ≤ roundHalfEven (y * 12)) :
    ∃ rows, amortization_schedule p a y = Except.ok rows ∧
      (∀ i, ∀ hlt : i + 1 < rows.length,
        rows[i + 1].remaining_balance ≤ rows[i].remaining_balance) ∧
      (∀ i, ∀ hlt : i < rows.length, 0 ≤ rows[i].remaining_balance) := by
  obtain ⟨pay, hmp, hpos, hsched, hnon, hmono, hfinal⟩ :=
    schedule_normal_form p a y hp ha hN
  refine ⟨_, hsched, ?_, ?_⟩
  · intro i hlt
    simp only [List.getElem_map, List.getElem_range,
      scheduleRow_remaining_balance]
    exact round2_mono (max_le_max (hmono (i + 1)) le_rfl)
  · intro i hlt
    simp only [List.getElem_map, List.getElem_range,
      scheduleRow_remaining_balance]
    exact round2_nonneg (le_max_right _ _)

/-- C5 witness: the theorem applied to the concrete loan
principal 1000, rate 0%, years 1/6 (two periods). -/
theorem C5_witness :
    (0:ℚ) < 1000 ∧ (0:ℚ) ≤ 0 ∧ 1 ≤ roundHalfEven ((1/6 : ℚ) * 12) ∧
    (∃ rows, amortization_schedule 1000 0 (1/6) = Except.ok rows ∧
      (∀ i, ∀ hlt : i + 1 < rows.length,
        rows[i + 1].remaining_balance ≤ rows[i].remaining_balance) ∧
      (∀ i, ∀ hlt : i < rows.length, 0 ≤ rows[i].remaining_balance)) :=
  ⟨by norm_num, le_refl 0, by norm_num [roundHalfEven],
    C5_balance_monotone_nonneg 1000 0 (1/6) (by norm_num) (le_refl 0)
      (by norm_num [roundHalfEven])⟩

/-- C8: for every valid `LoanTerms` with period count `N`, the sum of the
`principal_paid` fields over all schedule rows equals the principal within a
tolerance of `N × 0.01`. -/
theorem C8_principal_sum (p a y : ℚ) (hp : 0 < p) (ha : 0 ≤ a)
    (hN : 1 ≤ roundHalfEven (y * 12)) :
    ∃ rows, amortization_schedule p a y = Except.ok rows ∧
      |(rows.map Row.principal_paid).sum - p|
        ≤ ((roundHalfEven (y * 12) : ℤ) : ℚ) * (1/100) := by
  obtain ⟨pay, hmp, hpos, hsched, hnon, hmono, hfinal⟩ :=
    schedule_normal_form p a y hp ha hN
  refine ⟨_, hsched, ?_⟩
  rw [List.map_map]
  have hcomp : Row.principal_paid ∘ scheduleRow (a / 100 / 12) pay p
      = fun j => round2 (pay - iterBal (a / 100 / 12) pay p j * (a / 100 / 12)) :=
    rfl
  rw [hcomp]
  have htel : ((List.range (roundHalfEven (y * 12)).toNat).map fun j =>
        pay - iterBal (a / 100 / 12) pay p j * (a / 100 / 12)).sum
      = p - iterBal (a / 100 / 12) pay p (roundHalfEven (y * 12)).toNat := by
    rw [show (fun j => pay - iterBal (a / 100 / 12) pay p j * (a / 100 / 12))
        = fun j => iterBal (a / 100 / 12) pay p j
            - iterBal (a / 100 / 12) pay p (j + 1) from
      funext fun j => (iterBal_sub_succ _ _ _ j).symm]
    exact sum_map_telescope _ _
  rw [hfinal, sub_zero] at htel
  have hb := sum_map_round2_close
    (fun j => pay - iterBal (a / 100 / 12) pay p j * (a / 100 / 12))
    (roundHalfEven (y * 12)).toNat
  rw [htel] at hb
  have hcast : (((roundHalfEven (y * 12)).toNat : ℕ) : ℚ)
      = ((roundHalfEven (y * 12) : ℤ) : ℚ) := by
    exact_mod_cast Int.toNat_of_nonneg (by omega : (0:ℤ) ≤ roundHalfEven (y * 12))
  rw [hcast] at hb
  have hpos' : (0:ℚ) ≤ ((roundHalfEven (y * 12) : ℤ) : ℚ) := by
    exact_mod_cast (show (0:ℤ) ≤ roundHalfEven (y * 12) by omega)
  linarith

/-- C8 witness: the theorem applied to the concrete loan
principal 900, rate 0%, years 1/4 (three periods). -/
theorem C8_witness :
    (0:ℚ) < 900 ∧ (0:ℚ) ≤ 0 ∧ 1 ≤ roundHalfEven ((1/4 : ℚ) * 12) ∧
    (∃ rows, amortization_schedule 900 0 (1/4) = Except.ok rows ∧
      |(rows.map Row.principal_paid).sum - 900|
        ≤ ((roundHalfEven ((1/4 : ℚ) * 12) : ℤ) : ℚ) * (1/100)) :=
  ⟨by norm_num, le_refl 0, by norm_num [roundHalfEven],
    C8_principal_sum 900 0 (1/4) (by norm_num) (le_refl 0)
      (by norm_num [roundHalfEven])⟩

/-- Every row emitted by the loop at zero monthly rate records zero interest:
the interest computed each period is `balance * 0 = 0`. -/
lemma amortLoop_rate_zero_interest :
    ∀ (k : ℕ) (pay bal : ℚ) (m : ℤ) (row : Row),
      row ∈ amortLoop 0 k pay bal m → row.interest_paid = 0 := by
  intro k
  induction k with
  | zero =>
    intro pay bal m row h
    simp [amortLoop] at h
  | succ k ih =>
    intro pay bal m row h
    simp only [amortLoop] at h
    rcases List.mem_cons.mp h with hhead | htail
    · subst hhead
      simp [round2_zero]
    · exact ih _ _ _ _ htail

/-- C9: for every zero-rate loan (annual rate 0, period count ≥ 1),
`monthly_payment` returns `principal / N` exactly, and every row of the
schedule produced by `amortization_schedule` has `interest_paid = 0`. -/
theorem C9_zero_rate_loan (p y : ℚ) (hN : 1 ≤ roundHalfEven (y * 12)) :
    monthly_payment p 0 y
      = Except.ok (p / ((roundHalfEven (y * 12) : ℤ) : ℚ)) ∧
    ∃ rows, amortization_schedule p 0 y = Except.ok rows ∧
      ∀ row ∈ rows, row.interest_paid = 0 := by
  refine ⟨monthly_payment_zero_rate p y (by omega), ?_⟩
  have hms : amortization_schedule p 0 y = Except.ok
      (amortLoop 0 (roundHalfEven (y * 12)).toNat
        (p / ((roundHalfEven (y * 12) : ℤ) : ℚ)) p 1) := by
    unfold amortization_schedule
    simp only [monthly_payment_zero_rate p y (by omega)]
    norm_num
  refine ⟨_, hms, ?_⟩
  intro row hrow
  exact amortLoop_rate_zero_interest _ _ _ _ _ hrow

/-- C9 witness: the theorem applied to the concrete zero-rate loan
principal 1200, years 1/6 (two periods). -/
theorem C9_witness :
    1 ≤ roundHalfEven ((1/6 : ℚ) * 12) ∧
    (monthly_payment 1200 0 (1/6)
        = Except.ok (1200 / ((roundHalfEven ((1/6 : ℚ) * 12) : ℤ) : ℚ)) ∧
      ∃ rows, amortization_schedule 1200 0 (1/6) = Except.ok rows ∧
        ∀ row ∈ rows, row.interest_paid = 0) :=
  ⟨by norm_num [roundHalfEven],
    C9_zero_rate_loan 1200 (1/6) (by norm_num [roundHalfEven])⟩

/-- C3 counterexample: at years = 0 the derived period count is 0, and
`monthly_payment` fails with Python's `ZeroDivisionError`, which is not the
`InvalidTerm` error the claim requires. -/
theorem C3_counterexample :
    monthly_payment 1000 5 0 = Except.error PyError.zeroDivision ∧
    PyError.zeroDivision ≠ PyError.invalidTerm := by
  refine ⟨?_, by decide⟩
  norm_num [monthly_payment, roundHalfEven]

/-- C3 amended: when the derived period count `N = round(years*12)` is 0,
`monthly_payment` fails with `ZeroDivisionError` (there is no `InvalidTerm`
error in the code), and a negative period count is not rejected at all:
e.g. years = −1 at rate 5% returns a computed (negative) payment. -/
theorem C3_N_zero_zero_division :
    (∀ p a y : ℚ, roundHalfEven (y * 12) = 0 →
      monthly_payment p a y = Except.error PyError.zeroDivision) ∧
    (∃ v, monthly_payment 1000 5 (-1) = Except.ok v) := by
  constructor
  · intro p a y h
    simp only [monthly_payment, h]
    by_cases hr : a / 100 / 12 = 0
    · simp [hr]
    · rw [if_neg hr, if_neg (by simp : ¬(1 + a / 100 / 12 = 0 ∧ (0:ℤ) < 0))]
      norm_num
  · refine ⟨1000 * (5 / 100 / 12) / (1 - (1 + 5 / 100 / 12) ^ (-(-12 : ℤ))), ?_⟩
    have hn : roundHalfEven ((-1 : ℚ) * 12) = -12 := by
      norm_num [roundHalfEven]
    simp only [monthly_payment, hn]
    norm_num

/-- C3 witness: the amended theorem applied at principal 20, rate 7%,
years 0 (period count 0). -/
theorem C3_witness :
    roundHalfEven ((0:ℚ) * 12) = 0 ∧
    monthly_payment 20 7 0 = Except.error PyError.zeroDivision :=
  ⟨by norm_num [roundHalfEven],
    C3_N_zero_zero_division.1 20 7 0 (by norm_num [roundHalfEven])⟩

/-- C4 counterexample: `compound_interest` with n = 0 fails with Python's
`ZeroDivisionError` (raised by `rate / n`), which is not the
`InvalidCompoundingFrequency` error the claim requires. -/
theorem C4_counterexample :
    compound_interest 10000 5 3 0 = Except.error PyError.zeroDivision ∧
    PyError.zeroDivision ≠ PyError.invalidCompoundingFrequency := by
  refine ⟨?_, by decide⟩
  simp [compound_interest]

/-- C4 amended: for every input with compounding frequency n = 0,
`compound_interest` fails with `ZeroDivisionError` (the `rate / n` float
division), not with an `InvalidCompoundingFrequency` error, which does not
exist in the code. -/
theorem C4_n_zero_zero_division (p a t : ℚ) :
    compound_interest p a t 0 = Except.error PyError.zeroDivision := by
  simp [compound_interest]

/-- C10 counterexample: the claim that `compound_interest` returns a computed
result without signalling any error for every numeric input is false: with
rate −100%, n = 1 and a negative time the base `1 + rate/n` is 0 and the
exponent negative, and the call fails with `ZeroDivisionError` (as does n = 0,
per C4). -/
theorem C10_counterexample :
    compound_interest 1000 (-100) (-2) 1 = Except.error PyError.zeroDivision := by
  norm_num [compound_interest]

/-- C10 amended: none of the calculators validates the spec's input
constraints (principal ≥ 0, rate ≥ 0, time positive).  `simple_interest` is a
total function computing the formula for every input — with principal −1000 it
returns the negative interest −150 — and `compound_interest` returns a
computed result for every input with n ≠ 0, except the `0.0 ** negative`
degenerate case in which Python raises `ZeroDivisionError`. -/
theorem C10_no_validation :
    (∀ p a t : ℚ, simple_interest p a t
      = { principal := p, interest := p * (a / 100) * t,
          total := p + p * (a / 100) * t }) ∧
    simple_interest (-1000) 5 3
      = { principal := -1000, interest := -150, total := -1150 } ∧
    (∀ (p a t : ℚ) (n : ℤ), n ≠ 0 →
      ¬(1 + a / 100 / (n:ℚ) = 0 ∧ (n:ℚ) * t < 0) →
      ∃ res, compound_interest p a t n = Except.ok res) := by
  refine ⟨fun p a t => rfl, by norm_num [simple_interest], ?_⟩
  intro p a t n hn hnd
  unfold compound_interest
  rw [if_neg hn, if_neg hnd]
  by_cases hden : (((n:ℤ):ℚ) * t).den = 1
  · exact ⟨_, by rw [if_pos hden]⟩
  · exact ⟨none, by rw [if_neg hden]⟩

/-- C10 witness: the amended theorem's compound-interest part applied at
principal 500, rate 3%, time 2, n = 1. -/
theorem C10_witness :
    ((1:ℤ) ≠ 0) ∧ ¬((1:ℚ) + 3 / 100 / ((1:ℤ):ℚ) = 0 ∧ ((1:ℤ):ℚ) * 2 < 0) ∧
    (∃ res, compound_interest 500 3 2 1 = Except.ok res) :=
  ⟨by norm_num, by norm_num,
    C10_no_validation.2.2 500 3 2 1 (by norm_num) (by norm_num)⟩

lemma amortLoop_length (r : ℚ) :
    ∀ (k : ℕ) (pay bal : ℚ) (m : ℤ), (amortLoop r k pay bal m).length = k := by
  intro k
  induction k with
  | zero => intros; rfl
  | succ k ih =>
    intro pay bal m
    simp only [amortLoop, List.length_cons, ih]

/-- C6 counterexample: years = 0.375 gives years × 12 = 4.5, an exact tie;
the code's period count is `int(round(4.5)) = 4` (Python 3 rounds half to
even) and the schedule has 4 rows, while the claimed round-half-up policy
would give 5. -/
theorem C6_counterexample :
    (0.375 : ℚ) * 12 - (⌊(0.375 : ℚ) * 12⌋ : ℚ) = 1/2 ∧
    roundHalfEven ((0.375 : ℚ) * 12) = 4 ∧
    roundHalfUp ((0.375 : ℚ) * 12) = 5 ∧
    (4 : ℤ) ≠ 5 ∧
    Except.map List.length (amortization_schedule 1000 0 (0.375 : ℚ))
      = Except.ok 4 := by
  refine ⟨by norm_num, by norm_num [roundHalfEven], by norm_num [roundHalfUp],
    by decide, ?_⟩
  norm_num [amortization_schedule, monthly_payment, roundHalfEven, amortLoop,
    round2, Except.map]

/-- C6 amended: the period count is `round(years × 12)` with Python 3's
round-half-to-even tie-break, not round-half-up: at an exact tie the count is
the floor when the floor is even and the floor + 1 otherwise, and the schedule
produced by `amortization_schedule` has exactly that many rows. -/
theorem C6_half_even_tie_break (y : ℚ)
    (htie : y * 12 - (⌊y * 12⌋ : ℚ) = 1/2) :
    (roundHalfEven (y * 12)
      = if ⌊y * 12⌋ % 2 = 0 then ⌊y * 12⌋ else ⌊y * 12⌋ + 1) ∧
    ∀ p a rows, amortization_schedule p a y = Except.ok rows →
      rows.length = (roundHalfEven (y * 12)).toNat := by
  constructor
  · simp only [roundHalfEven, htie]
    norm_num
  · intro p a rows h
    unfold amortization_schedule at h
    rcases hmp : monthly_payment p a y with e | pay <;> rw [hmp] at h
    · simp at h
    · simp only [Except.ok.injEq] at h
      rw [← h]
      exact amortLoop_length _ _ _ _ _

/-- C6 witness: the amended theorem applied at years = 0.375
(years × 12 = 4.5, period count 4). -/
theorem C6_witness :
    ((0.375 : ℚ) * 12 - (⌊(0.375 : ℚ) * 12⌋ : ℚ) = 1/2) ∧
    ((roundHalfEven ((0.375 : ℚ) * 12)
        = if ⌊(0.375 : ℚ) * 12⌋ % 2 = 0 then ⌊(0.375 : ℚ) * 12⌋
          else ⌊(0.375 : ℚ) * 12⌋ + 1) ∧
      ∀ p a rows, amortization_schedule p a (0.375 : ℚ) = Except.ok rows →
        rows.length = (roundHalfEven ((0.375 : ℚ) * 12)).toNat) :=
  ⟨by norm_num, C6_half_even_tie_break (0.375 : ℚ) (by norm_num)⟩

/-- The loop of `amortization_schedule` with all rounding removed: the same
branch decisions and state updates as `amortLoop`, recording the raw values. -/
def amortLoopRaw (r : ℚ) : ℕ → ℚ → ℚ → ℤ → List Row
  | 0, _, _, _ => []
  | k + 1, payment, balance, month =>
    let interest := balance * r
    let principal_paid := payment - interest
    let principal_paid' := if principal_paid > balance then balance else principal_paid
    let payment' :=
      if principal_paid > balance then interest + principal_paid' else payment
    let balance' := balance - principal_paid'
    { month := month
      payment := payment'
      principal_paid := principal_paid'
      interest_paid := interest
      remaining_balance := balance' } ::
      amortLoopRaw r k payment' balance' (month + 1)

/-- Rounding applied at emission only: each monetary field rounded to two
decimals, the recorded balance clamped at 0 first (the
`round(max(balance, 0.0), 2)` of the source). -/
def roundRow (row : Row) : Row :=
  { month := row.month
    payment := round2 row.payment
    principal_paid := round2 row.principal_paid
    interest_paid := round2 row.interest_paid
    remaining_balance := round2 (max row.remaining_balance 0) }

lemma amortLoop_eq_map_roundRow (r : ℚ) :
    ∀ (k : ℕ) (pay bal : ℚ) (m : ℤ),
      amortLoop r k pay bal m = (amortLoopRaw r k pay bal m).map roundRow := by
  intro k
  induction k with
  | zero => intros; rfl
  | succ k ih =>
    intro pay bal m
    simp only [amortLoop, amortLoopRaw, List.map_cons]
    congr 1
    exact ih _ _ _

/-- C7 counterexample: for the loan principal 1.2525, rate 3600%, years 1/6
(two periods, monthly rate 3) the recorded period-2 interest is 3.01, computed
from the full-precision balance 1.002 carried by the loop, whereas computing
it from the rounded period-1 recorded balance 1.00 would give
round2(1.00 × 3) = 3.00: the iteration does not use the rounded balance the
claim says it uses. -/
theorem C7_counterexample :
    Except.map (fun rows => rows.map Row.interest_paid)
        (amortization_schedule (12525/10000) 3600 (1/6))
      = Except.ok [94/25, 301/100] ∧
    Except.map (fun rows => rows.map Row.remaining_balance)
        (amortization_schedule (12525/10000) 3600 (1/6))
      = Except.ok [1, 0] ∧
    round2 ((1 : ℚ) * (3600 / 100 / 12)) = 3 ∧
    (301/100 : ℚ) ≠ 3 := by
  refine ⟨?_, ?_, by norm_num [round2, roundHalfEven], by norm_num⟩ <;>
    norm_num [amortization_schedule, monthly_payment, roundHalfEven, amortLoop,
      round2, Except.map]

/-- C7 amended: rounding is not carried into the iteration.  The loop keeps
the full-precision running balance and payment, and every row is rounded only
at emission: the schedule equals the per-row rounding of the completely
unrounded loop `amortLoopRaw`. -/
theorem C7_rounding_at_emission_only (p a y : ℚ) :
    amortization_schedule p a y = (monthly_payment p a y).map fun pay =>
      (amortLoopRaw (a / 100 / 12) (roundHalfEven (y * 12)).toNat pay p 1).map
        roundRow := by
  unfold amortization_schedule
  rcases hmp : monthly_payment p a y with e | pay <;>
    simp [hmp, Except.map, amortLoop_eq_map_roundRow]

end FixedInterest
